import Mathlib

/-!
Verification of the session multiplexer and interactive-menu detection
pipeline of the `claude_code_remote_control` VS Code extension
(`src/extension.ts`, class `ClaudeTerminalProvider`).

Text is modelled as `List Char`.  The source file on disk is UTF-8 that was
once decoded as Windows-1252 and re-encoded (mojibake); the embedding uses
the original characters recovered from the byte stream (e.g. the box-drawing
characters in the regexes of `_hasBoxStructure` and `_parseClaudeMenuLine`).

JavaScript regular expressions are embedded as executable character-list
matchers; each definition carries the regex it implements.  JS `\s` also
matches some Unicode space separators; the embedding uses the ASCII
whitespace set, which agrees with JS on all inputs considered here.
-/

/-- JS `\s` character class (ASCII part): space, tab, newline, carriage
return, vertical tab, form feed.  Also the set removed by `String.trim`. -/
def isWS (c : Char) : Bool :=
  c = ' ' || c = '\t' || c = '\n' || c = '\r' || c = '\x0b' || c = '\x0c'

/-- JS regex `.` without the `s` flag: any character except line
terminators. -/
def isRegexDot (c : Char) : Bool :=
  !(c = '\n' || c = '\r')

/-- JS `String.prototype.trim`: drop whitespace from both ends. -/
def trimWS (l : List Char) : List Char :=
  ((l.dropWhile isWS).reverse.dropWhile isWS).reverse

/-- Helper for splitting: prepend a character to the first (current) line
of an already-split list. -/
def consCurrent (c : Char) : List (List Char) → List (List Char)
  | [] => [[c]]
  | l :: ls => (c :: l) :: ls

/-- `data.split(/\r?\n/)` from `_updateTerminalBuffer`: split a chunk on
`\n`, consuming a `\r` immediately before each `\n`; a lone `\r` is kept. -/
def splitChunkLines : List Char → List (List Char)
  | [] => [[]]
  | '\r' :: '\n' :: r => [] :: splitChunkLines r
  | '\n' :: r => [] :: splitChunkLines r
  | c :: r => consCurrent c (splitChunkLines r)

/-- Field `maxBufferLines = 50` of `ClaudeTerminalProvider`. -/
def maxBufferLines : Nat := 50

/-- `_updateTerminalBuffer(data)`: split the chunk into lines, append them
to the rolling buffer, and if the buffer now exceeds `maxBufferLines`
entries keep only the last `maxBufferLines` (`slice(-maxBufferLines)`). -/
def updateTerminalBuffer (buf : List (List Char)) (data : List Char) :
    List (List Char) :=
  let b := buf ++ splitChunkLines data
  if maxBufferLines < b.length then b.drop (b.length - maxBufferLines) else b

theorem splitChunkLines_ne_nil (d : List Char) : splitChunkLines d ≠ [] := by
  induction d using splitChunkLines.induct with
  | case1 => simp [splitChunkLines]
  | case2 r ih => simp [splitChunkLines]
  | case3 r ih => simp [splitChunkLines]
  | case4 c r h1 h2 ih =>
    simp only [splitChunkLines]
    cases hs : splitChunkLines r with
    | nil => simp [consCurrent]
    | cons l ls => simp [consCurrent]

theorem length_consCurrent (c : Char) (ls : List (List Char)) (h : ls ≠ []) :
    (consCurrent c ls).length = ls.length := by
  cases ls with
  | nil => exact absurd rfl h
  | cons l ls => simp [consCurrent]

/-- Entry count of a split chunk: one more than the number of `\n`
terminators in the chunk. -/
theorem length_splitChunkLines (d : List Char) :
    (splitChunkLines d).length = d.count '\n' + 1 := by
  induction d using splitChunkLines.induct with
  | case1 => simp [splitChunkLines]
  | case2 r ih =>
    simp only [splitChunkLines, List.length_cons, ih, List.count_cons]
    simp [List.count]
  | case3 r ih =>
    simp only [splitChunkLines, List.length_cons, ih]
    simp [List.count]
  | case4 c r h1 h2 ih =>
    simp only [splitChunkLines]
    rw [length_consCurrent c _ (splitChunkLines_ne_nil r), ih]
    have hc : c ≠ '\n' := by
      intro h
      subst h
      exact h2 rfl
    simp [List.count_cons, hc]

/-- Character class `[0-9;]` of the ANSI-escape regex. -/
def isAnsiParam (c : Char) : Bool :=
  c.isDigit || c = ';'

/-- After an ESC character: try to consume `\[[0-9;]*[mA-Za-z]` (the class
`[mA-Za-z]` is exactly the ASCII letters), returning the rest on success. -/
def ansiTail (l : List Char) : Option (List Char) :=
  match l with
  | c :: r =>
    if c = '[' then
      match r.dropWhile isAnsiParam with
      | c2 :: rest => if c2.isAlpha then some rest else none
      | [] => none
    else none
  | [] => none

theorem ansiTail_length {l rest : List Char} (h : ansiTail l = some rest) :
    rest.length < l.length := by
  cases l with
  | nil => simp [ansiTail] at h
  | cons c r =>
    simp only [ansiTail] at h
    by_cases hc : c = '['
    · rw [if_pos hc] at h
      have hdw : (r.dropWhile isAnsiParam).length ≤ r.length :=
        (List.dropWhile_suffix isAnsiParam).length_le
      cases hd : r.dropWhile isAnsiParam with
      | nil => rw [hd] at h; simp at h
      | cons c2 rest2 =>
        rw [hd] at h
        by_cases hc2 : c2.isAlpha
        · simp only [hc2, if_true, Option.some.injEq] at h
          subst h
          rw [hd] at hdw
          simp only [List.length_cons] at hdw ⊢
          omega
        · simp [hc2] at h
    · rw [if_neg hc] at h
      simp at h

/-- Fuelled scanner for `text.replace(/\x1b\[[0-9;]*[mA-Za-z]/g, '')`:
drop every ANSI escape sequence, keep everything else.  Each step consumes
at least one character, so `l.length` fuel suffices. -/
def stripAnsiGo : Nat → List Char → List Char
  | 0, _ => []
  | _ + 1, [] => []
  | fuel + 1, c :: r =>
    if c = '\x1b' then
      match ansiTail r with
      | some rest => stripAnsiGo fuel rest
      | none => c :: stripAnsiGo fuel r
    else c :: stripAnsiGo fuel r

/-- `text.replace(/\x1b\[[0-9;]*[mA-Za-z]/g, '')`, applied by
`_hasBoxStructure`, `_hasInteractiveElements` and `_parseMenuOptions`. -/
def stripAnsi (l : List Char) : List Char :=
  stripAnsiGo l.length l

/-- Middle of the regex `/┌[─┬]*┐.*┘/s`: consume `[─┬]*` then `┐`.  The
run class excludes `┐`, so greedy matching is deterministic. -/
def boxMidSingle : List Char → Option (List Char)
  | [] => none
  | c :: r =>
    if c = '┐' then some r
    else if c = '─' || c = '┬' then boxMidSingle r
    else none

/-- Unanchored test of `/┌[─┬]*┐.*┘/s` ("Complete Unicode box"): some `┌`
followed by a `[─┬]` run, a `┐`, and a later `┘` (`.` matches line
terminators under the `s` flag). -/
def hasCompleteBoxSingle : List Char → Bool
  | [] => false
  | c :: r =>
    (c = '┌' &&
      (match boxMidSingle r with
       | some rest => rest.contains '┘'
       | none => false)) ||
    hasCompleteBoxSingle r

/-- Middle of the regex `/╔[═╦]*╗.*╝/s`: consume `[═╦]*` then `╗`. -/
def boxMidDouble : List Char → Option (List Char)
  | [] => none
  | c :: r =>
    if c = '╗' then some r
    else if c = '═' || c = '╦' then boxMidDouble r
    else none

/-- Unanchored test of `/╔[═╦]*╗.*╝/s` ("Complete double-line box"). -/
def hasCompleteBoxDouble : List Char → Bool
  | [] => false
  | c :: r =>
    (c = '╔' &&
      (match boxMidDouble r with
       | some rest => rest.contains '╝'
       | none => false)) ||
    hasCompleteBoxDouble r

/-- Middle of the regex `/\+[-+]*\+.*\+/s`: after the opening `+`, match
`[-+]*` then `+` then `.*\+`.  The run class contains `+`, so each `+` in
the run may either close the run (then a further `+` must follow somewhere)
or extend it (backtracking disjunction). -/
def plusMid : List Char → Bool
  | [] => false
  | c :: r =>
    if c = '+' then r.contains '+' || plusMid r
    else if c = '-' then plusMid r
    else false

/-- Unanchored test of `/\+[-+]*\+.*\+/s` ("Complete ASCII box"). -/
def hasCompleteBoxAscii : List Char → Bool
  | [] => false
  | c :: r => (c = '+' && plusMid r) || hasCompleteBoxAscii r

/-- Character class `[┌┐└┘─│╔╗╚╝═║+|]` of the box-character count in
`_hasBoxStructure`. -/
def isBoxChar (c : Char) : Bool :=
  ['┌', '┐', '└', '┘', '─', '│', '╔', '╗', '╚', '╝', '═', '║', '+', '|'].contains c

/-- `_hasBoxStructure(text)`: strip ANSI escapes, then succeed if any of
the three complete-box patterns matches, or if at least 4 characters of
the box-drawing class occur anywhere. -/
def hasBoxStructure (text : List Char) : Bool :=
  let cleanText := stripAnsi text
  hasCompleteBoxSingle cleanText || hasCompleteBoxDouble cleanText ||
    hasCompleteBoxAscii cleanText ||
    decide (4 ≤ (cleanText.filter isBoxChar).length)

/-- Tail `.{3,}` of the numbered-menu regex: at least three consecutive
characters matchable by `.` (no line terminators) from this position. -/
def dotsAtLeast3 (l : List Char) : Bool :=
  match l with
  | a :: b :: c :: _ => isRegexDot a && isRegexDot b && isRegexDot c
  | _ => false

/-- Tail `\s+.{3,}`: at least one whitespace character, then (possibly
after more whitespace) three `.`-matchable characters.  Plain existence
suffices for a regex `test`. -/
def wsThenDots : List Char → Bool
  | [] => false
  | c :: r => isWS c && (dotsAtLeast3 r || wsThenDots r)

/-- The regex `/^\s*\d+\.\s+.{3,}/m` matched at one position
(`numberedMenuPattern` in `_hasInteractiveElements`).  `\s*` then `\d+`
then `\.` are deterministic because the classes are disjoint. -/
def matchNumAt (l : List Char) : Bool :=
  let l1 := l.dropWhile isWS
  let ds := l1.takeWhile Char.isDigit
  !ds.isEmpty &&
    (match l1.drop ds.length with
     | '.' :: r => wsThenDots r
     | _ => false)

/-- Multiline-anchored search: try `p` at the start of the text and after
every line terminator (JS `^` with the `m` flag). -/
def anyLineStartGo (p : List Char → Bool) : List Char → Bool → Bool
  | [], atStart => atStart && p []
  | l@(c :: r), atStart =>
    (atStart && p l) || anyLineStartGo p r (c = '\n' || c = '\r')

def anyLineStart (p : List Char → Bool) (l : List Char) : Bool :=
  anyLineStartGo p l true

/-- Extent of `.{3,}` (greedy): the maximal run of `.`-matchable
characters, required to have length at least 3; returns the rest. -/
def dotsExtent (l : List Char) : Option (List Char) :=
  let run := l.takeWhile isRegexDot
  if 3 ≤ run.length then some (l.drop run.length) else none

/-- Extent of the tail of `\s+(.{3,})` after the first whitespace
character, following the JS backtracking order: prefer consuming more
whitespace (greedy `\s+`), otherwise start the `.{3,}` here. -/
def wsMoreDotsExtent : List Char → Option (List Char)
  | [] => none
  | c :: r =>
    if isWS c then
      match wsMoreDotsExtent r with
      | some rem => some rem
      | none => dotsExtent (c :: r)
    else dotsExtent (c :: r)

/-- Extent of `\s+(.{3,})`: at least one whitespace then the greedy dots. -/
def wsPlusDotsExtent : List Char → Option (List Char)
  | [] => none
  | c :: r => if isWS c then wsMoreDotsExtent r else none

/-- One match of `/^\s*(\d+)\.\s+(.{3,})/gm` at a given position,
returning the remainder of the text after the match. -/
def matchNumExtentAt (l : List Char) : Option (List Char) :=
  let l1 := l.dropWhile isWS
  let ds := l1.takeWhile Char.isDigit
  if ds.isEmpty then none
  else
    match l1.drop ds.length with
    | '.' :: r => wsPlusDotsExtent r
    | _ => none

/-- Fuelled `matchAll` counter for `/^\s*(\d+)\.\s+(.{3,})/gm`
(`numberedOptions.length` in `_hasInteractiveElements`): scan left to
right, matching only at line starts, resuming after each match.  Every
step consumes at least one character, so `l.length + 1` fuel suffices. -/
def countNumGo : Nat → List Char → Bool → Nat
  | 0, _, _ => 0
  | _ + 1, [], _ => 0
  | fuel + 1, l@(c :: r), atStart =>
    if atStart then
      match matchNumExtentAt l with
      | some rem => 1 + countNumGo fuel rem false
      | none => countNumGo fuel r (c = '\n' || c = '\r')
    else countNumGo fuel r (c = '\n' || c = '\r')

def countNumberedOptions (l : List Char) : Nat :=
  countNumGo (l.length + 1) l true

/-- Case-insensitive literal word match (the pattern is given in lower
case); returns the rest on success. -/
def matchWordCI : List Char → List Char → Option (List Char)
  | [], l => some l
  | _ :: _, [] => none
  | p :: ps, c :: r => if c.toLower = p then matchWordCI ps r else none

/-- A `\s+` separator: at least one whitespace character, consumed
greedily (deterministic, the following word characters are not `\s`). -/
def wsPlus : List Char → Option (List Char)
  | [] => none
  | c :: r => if isWS c then some (r.dropWhile isWS) else none

/-- Words separated by `\s+`, matched at one position (case-insensitive);
embeds `/do\s+you\s+want\s+to/i` and friends. -/
def matchWordsAt : List (List Char) → List Char → Bool
  | [], _ => true
  | [w], l => (matchWordCI w l).isSome
  | w :: ws, l =>
    match matchWordCI w l with
    | some r =>
      match wsPlus r with
      | some r2 => matchWordsAt ws r2
      | none => false
    | none => false

/-- Plain unanchored search: try `p` at every position. -/
def anyPos (p : List Char → Bool) : List Char → Bool
  | [] => p []
  | l@(_ :: r) => p l || anyPos p r

/-- Tail `.*file` of `/create.*file/i`: some run of `.`-matchable
characters followed by the word `file` (case-insensitive). -/
def fileAfterDots : List Char → Bool
  | [] => false
  | l@(c :: r) => (matchWordCI "file".data l).isSome || (isRegexDot c && fileAfterDots r)

/-- `/create.*file/i` matched at one position. -/
def createFileAt (l : List Char) : Bool :=
  match matchWordCI "create".data l with
  | some r => fileAfterDots r
  | none => false

/-- `/^\s*\d+\.\s+(yes|no)/mi` matched at one (line-start) position. -/
def yesNoAt (l : List Char) : Bool :=
  let l1 := l.dropWhile isWS
  let ds := l1.takeWhile Char.isDigit
  !ds.isEmpty &&
    (match l1.drop ds.length with
     | '.' :: r =>
       match wsPlus r with
       | some r2 =>
         (matchWordCI "yes".data r2).isSome || (matchWordCI "no".data r2).isSome
       | none => false
     | _ => false)

/-- `_hasInteractiveElements(text)`: strip ANSI escapes; succeed if the
numbered-menu pattern matches with at least two `matchAll` hits, or if any
of the fixed Claude prompt patterns matches. -/
def hasInteractiveElements (text : List Char) : Bool :=
  let cleanText := stripAnsi text
  (anyLineStart matchNumAt cleanText && decide (2 ≤ countNumberedOptions cleanText)) ||
    anyPos (matchWordsAt ["do".data, "you".data, "want".data, "to".data]) cleanText ||
    anyPos (matchWordsAt ["should".data, "i".data, "proceed".data]) cleanText ||
    anyPos (matchWordsAt ["would".data, "you".data, "like".data]) cleanText ||
    anyPos createFileAt cleanText ||
    anyLineStart yesNoAt cleanText

/-- `cleanText.split('\n')` in `_parseMenuOptions`: split on `\n` only
(`\r` is ordinary content here, unlike the buffer split). -/
def splitOnNl : List Char → List (List Char)
  | [] => [[]]
  | '\n' :: r => [] :: splitOnNl r
  | c :: r => consCurrent c (splitOnNl r)

/-- `terminalBuffer.join('\n')` in `_detectInteractiveMenu`. -/
def joinNl : List (List Char) → List Char
  | [] => []
  | [l] => l
  | l :: ls => l ++ '\n' :: joinNl ls

/-- `line.trim().endsWith('?')`: the skip test for question lines in
`_parseMenuOptions`. -/
def trimEndsQ (line : List Char) : Bool :=
  (trimWS line).getLast? = some '?'

/-- The `hasMenuNumber` gate
`line.match(/[│\s]*[❯\s]*\s*\d+\.\s+/) || line.match(/^\s*\d+\.\s+/)`.
All three leading pieces of the first regex may be empty and it is
unanchored, so (the second regex being a special case) the disjunction
holds exactly when some digit is followed by `.` and then whitespace. -/
def numDotWsAfterDigit : List Char → Bool
  | [] => false
  | c :: r =>
    (c.isDigit && numDotWsAfterDigit r) ||
    (c = '.' &&
      (match r with
       | d :: _ => isWS d
       | [] => false))

def hasMenuNumberGate : List Char → Bool
  | [] => false
  | c :: r => (c.isDigit && numDotWsAfterDigit r) || hasMenuNumberGate r

/-- The `hasLetterOption` gate
`line.match(/[│\s]*[❯\s]*\s*\([a-z]\)\s+/i) || line.match(/^\s*\([a-z]\)\s+/i)`:
as above, it holds exactly when `(<ASCII letter>)` is followed by
whitespace somewhere in the line. -/
def letterParenAt : List Char → Bool
  | '(' :: c :: ')' :: d :: _ => c.isAlpha && isWS d
  | _ => false

def hasLetterOptionGate : List Char → Bool
  | [] => false
  | l@(_ :: r) => letterParenAt l || hasLetterOptionGate r

/-- Characters removed by `_parseClaudeMenuLine` before matching:
`replace(/[│╭╮╯╰─]/g, '')` and `replace(/❯/g, '')`. -/
def isMenuStripChar (c : Char) : Bool :=
  ['│', '╭', '╮', '╯', '╰', '─'].contains c || c = '❯'

/-- `cleanLine` of `_parseClaudeMenuLine`: strip the box/cursor characters
and trim. -/
def menuLineClean (line : List Char) : List Char :=
  trimWS (line.filter (fun c => !isMenuStripChar c))

/-- Tail `\s*(.+?)$` shared by both patterns of `_parseClaudeMenuLine`:
greedy `\s*`, then a non-empty run of `.`-matchable characters reaching
the end of the string; returns the group.  Backtracking returns trailing
whitespace to the group when nothing follows it, matching the JS order. -/
def lineRest : List Char → Option (List Char)
  | [] => none
  | c :: rr =>
    if isWS c then
      match lineRest rr with
      | some g => some g
      | none => if (c :: rr).all isRegexDot then some (c :: rr) else none
    else if (c :: rr).all isRegexDot then some (c :: rr) else none

/-- Pattern 1 of `_parseClaudeMenuLine`: `/^\s*(\d+)\.\s*(.+?)$/` with
`key = digits`, `label = description = match[2].trim()`. -/
def numPattern (cl : List Char) : Option (List Char × List Char) :=
  let l1 := cl.dropWhile isWS
  let ds := l1.takeWhile Char.isDigit
  if ds.isEmpty then none
  else
    match l1.drop ds.length with
    | '.' :: r =>
      match lineRest r with
      | some g => some (ds, trimWS g)
      | none => none
    | _ => none

/-- Pattern 2 of `_parseClaudeMenuLine`: `/^\s*\(([a-z])\)\s*(.+?)$/i` with
`key = match[1].toLowerCase()`, `label = match[2].trim()`. -/
def letterPattern (cl : List Char) : Option (Char × List Char) :=
  match cl.dropWhile isWS with
  | '(' :: c :: ')' :: r =>
    if c.isAlpha then
      match lineRest r with
      | some g => some (c.toLower, trimWS g)
      | none => none
    else none
  | _ => none

/-- `_parseClaudeMenuLine(line)`: clean the line, then try the numbered
pattern, then the parenthesised-letter pattern. -/
def parseClaudeMenuLine (line : List Char) : Option (List Char × List Char) :=
  let cleanLine := menuLineClean line
  match numPattern cleanLine with
  | some kl => some kl
  | none =>
    match letterPattern cleanLine with
    | some cl => some ([cl.1], cl.2)
    | none => none

/-- Body of the option loop in `_parseMenuOptions` for one (trimmed,
non-empty) line: skip question lines, require one of the two menu-row
gates, then parse. -/
def menuLineExtract (line : List Char) : Option (List Char × List Char) :=
  if trimEndsQ line then none
  else if hasMenuNumberGate line || hasLetterOptionGate line then
    parseClaudeMenuLine line
  else none

/-- `_parseMenuOptions(text)`: strip ANSI escapes, split on `\n`, trim
each line, drop empty lines, and extract an option from each remaining
line that passes the gates, in order. -/
def parseMenuOptions (text : List Char) : List (List Char × List Char) :=
  let cleanText := stripAnsi text
  let lines := ((splitOnNl cleanText).map trimWS).filter (fun l => !l.isEmpty)
  lines.filterMap menuLineExtract

/-- `_detectInteractiveMenu()` on a given buffer: join the buffer with
newlines; if both the structural and the semantic check pass, the parsed
options are the result, otherwise no options are produced. -/
def detectInteractiveMenu (buffer : List (List Char)) :
    List (List Char × List Char) :=
  let fullBuffer := joinNl buffer
  if hasBoxStructure fullBuffer && hasInteractiveElements fullBuffer then
    parseMenuOptions fullBuffer
  else []

/-- The window of claim C1: `1. Yes` and `2. No` inside a complete box
frame with top border `┌───┐` and matching bottom `└───┘`. -/
def c1Window : List (List Char) :=
  ["┌───┐".data, "1. Yes".data, "2. No".data, "└───┘".data]

/-- C1: for the window of two lines `1. Yes` and `2. No` enclosed in a
complete box frame, the menu detection pipeline returns exactly the
ordered option list `[(key "1", label "Yes"), (key "2", label "No")]`. -/
theorem c1_box_menu_detected :
    detectInteractiveMenu c1Window =
      [("1".data, "Yes".data), ("2".data, "No".data)] := by
  decide

/-- C2: the detector emits options only when both the structural and the
semantic check pass; a window holding only `Would you like to continue?`
yields no options (no box characters), and a numbered list with fewer
than 4 box-drawing characters and no complete frame yields no options. -/
theorem c2_conjunction_gate :
    (∀ buffer : List (List Char),
      detectInteractiveMenu buffer = [] ∨
        (hasBoxStructure (joinNl buffer) = true ∧
          hasInteractiveElements (joinNl buffer) = true)) ∧
    detectInteractiveMenu ["Would you like to continue?".data] = [] ∧
    detectInteractiveMenu ["1. Yes please".data, "2. No thanks".data] = [] ∧
    hasInteractiveElements (joinNl ["Would you like to continue?".data]) = true ∧
    hasInteractiveElements
      (joinNl ["1. Yes please".data, "2. No thanks".data]) = true := by
  refine ⟨?_, by decide, by decide, by decide, by decide⟩
  intro buffer
  unfold detectInteractiveMenu
  set f := joinNl buffer with hf
  cases hb : hasBoxStructure f with
  | false => left; simp [hb]
  | true =>
    cases hi : hasInteractiveElements f with
    | false => left; simp [hb, hi]
    | true => right; exact ⟨rfl, rfl⟩

/-- C3 counterexample: the line `1│. Yes` strips to `1. Yes`, which has
the claimed numbered form `<digits>. <text>`, yet option extraction
discards the line, because the menu-row gates run on the raw line, where
no digit is directly followed by `.` and whitespace. -/
theorem c3_counterexample :
    menuLineExtract "1│. Yes".data = none ∧
    numPattern (menuLineClean "1│. Yes".data) = some ("1".data, "Yes".data) ∧
    trimEndsQ "1│. Yes".data = false := by
  decide

/-- C3 as amended: a line ending in `?` (after trimming) is never an
option; a line passing neither raw-line menu-row gate is discarded; and a
line that does pass a gate is matched, after stripping box/cursor
characters, first against the numbered pattern (key = digits, label =
trimmed remainder) and then against the parenthesised-letter pattern
(key = lower-cased letter, label = trimmed remainder), and is discarded
if neither matches. -/
theorem c3_line_extraction_amended (line : List Char) :
    (trimEndsQ line = true → menuLineExtract line = none) ∧
    (hasMenuNumberGate line = false → hasLetterOptionGate line = false →
      menuLineExtract line = none) ∧
    (trimEndsQ line = false →
      (hasMenuNumberGate line = true ∨ hasLetterOptionGate line = true) →
      ((∀ k lab, numPattern (menuLineClean line) = some (k, lab) →
          menuLineExtract line = some (k, lab)) ∧
       (numPattern (menuLineClean line) = none →
          ∀ c lab, letterPattern (menuLineClean line) = some (c, lab) →
          menuLineExtract line = some ([c], lab)) ∧
       (numPattern (menuLineClean line) = none →
          letterPattern (menuLineClean line) = none →
          menuLineExtract line = none))) := by
  refine ⟨?_, ?_, ?_⟩
  · intro h
    simp [menuLineExtract, h]
  · intro h1 h2
    simp [menuLineExtract, h1, h2]
  · intro hq hg
    have hg2 : (hasMenuNumberGate line || hasLetterOptionGate line) = true := by
      rcases hg with h | h <;> simp [h]
    refine ⟨?_, ?_, ?_⟩
    · intro k lab h
      simp [menuLineExtract, hq, hg2, parseClaudeMenuLine, h]
    · intro hn c lab h
      simp [menuLineExtract, hq, hg2, parseClaudeMenuLine, hn, h]
    · intro hn hl
      simp [menuLineExtract, hq, hg2, parseClaudeMenuLine, hn, hl]

/-- Witness for the amended C3 at the spec's own example `(A) Keep file`:
the letter key is lower-cased. -/
theorem c3_line_extraction_amended_witness :
    menuLineExtract "(A) Keep file".data = some ("a".data, "Keep file".data) := by
  have h := (c3_line_extraction_amended "(A) Keep file".data).2.2 (by decide)
    (Or.inr (by decide))
  exact h.2.1 (by decide) 'a' "Keep file".data (by decide)

theorem updateTerminalBuffer_length_le (buf : List (List Char))
    (data : List Char) :
    (updateTerminalBuffer buf data).length ≤ maxBufferLines := by
  unfold updateTerminalBuffer
  set b := buf ++ splitChunkLines data with hb
  by_cases h : maxBufferLines < b.length
  · simp only [h, if_true, List.length_drop]
    omega
  · simp only [h, if_false]
    omega

theorem updateTerminalBuffer_suffix (buf : List (List Char))
    (data : List Char) :
    List.IsSuffix (updateTerminalBuffer buf data)
      (buf ++ splitChunkLines data) := by
  unfold updateTerminalBuffer
  set b := buf ++ splitChunkLines data with hb
  by_cases h : maxBufferLines < b.length
  · simp only [h, if_true]
    exact List.drop_suffix _ _
  · simp only [h, if_false]
    exact List.suffix_refl b

theorem foldl_updateTerminalBuffer_suffix (chunks : List (List Char))
    (buf : List (List Char)) :
    List.IsSuffix (chunks.foldl updateTerminalBuffer buf)
      (buf ++ (chunks.map splitChunkLines).flatten) := by
  induction chunks generalizing buf with
  | nil => simp
  | cons d ds ih =>
    simp only [List.foldl_cons, List.map_cons, List.flatten_cons]
    have h1 := ih (updateTerminalBuffer buf d)
    have h2 : List.IsSuffix (updateTerminalBuffer buf d ++ (ds.map splitChunkLines).flatten)
        ((buf ++ splitChunkLines d) ++ (ds.map splitChunkLines).flatten) := by
      obtain ⟨t, ht⟩ := updateTerminalBuffer_suffix buf d
      exact ⟨t, by rw [← List.append_assoc, ht]⟩
    have h3 := h1.trans h2
    rwa [List.append_assoc] at h3

/-- C4: for every sequence of output chunks appended through
`_updateTerminalBuffer`, the buffer holds at most `maxBufferLines`
(= 50) entries after every append, and what is kept is always a suffix
of the full line stream — the oldest entries are evicted first. -/
theorem c4_buffer_bounded (chunks : List (List Char)) :
    (chunks.foldl updateTerminalBuffer []).length ≤ maxBufferLines ∧
    List.IsSuffix (chunks.foldl updateTerminalBuffer [])
      ((chunks.map splitChunkLines).flatten) := by
  constructor
  · cases hc : chunks with
    | nil => simp [maxBufferLines]
    | cons d ds =>
      have h : ∀ (l : List (List Char)) (b : List (List Char)),
          b.length ≤ maxBufferLines →
          (l.foldl updateTerminalBuffer b).length ≤ maxBufferLines := by
        intro l
        induction l with
        | nil => intro b hb; simpa using hb
        | cons x xs ih =>
          intro b hb
          exact ih _ (updateTerminalBuffer_length_le b x)
      exact h _ _ (by simp [maxBufferLines])
  · simpa using foldl_updateTerminalBuffer_suffix chunks []

/-- C10: a chunk fed to `_updateTerminalBuffer` contributes exactly
(number of line terminators) + 1 entries; an empty chunk contributes one
empty entry; and chunk boundaries act as line boundaries — two chunks are
split independently and their line lists are concatenated, so a chunk
without a trailing terminator stays its own entry and is never joined
with the next chunk. -/
theorem c10_chunk_line_semantics :
    (∀ data : List Char,
      (splitChunkLines data).length = data.count '\n' + 1) ∧
    splitChunkLines [] = [[]] ∧
    (∀ d1 d2 : List Char,
      (splitChunkLines d1).length + (splitChunkLines d2).length ≤ maxBufferLines →
      updateTerminalBuffer (updateTerminalBuffer [] d1) d2 =
        splitChunkLines d1 ++ splitChunkLines d2) := by
  refine ⟨length_splitChunkLines, rfl, ?_⟩
  intro d1 d2 h
  have h1 : updateTerminalBuffer [] d1 = splitChunkLines d1 := by
    simp only [updateTerminalBuffer, List.nil_append]
    rw [if_neg (by omega)]
  rw [h1]
  simp only [updateTerminalBuffer]
  rw [if_neg (by rw [List.length_append]; omega)]

/-- Witness for C10 at concrete chunks: `ab` then `cd` (no terminators)
stay two separate buffer entries. -/
theorem c10_chunk_line_semantics_witness :
    updateTerminalBuffer (updateTerminalBuffer [] "ab".data) "cd".data =
      ["ab".data, "cd".data] := by
  have h := c10_chunk_line_semantics.2.2 "ab".data "cd".data (by decide)
  rw [h]
  decide

/-- Transient detection state of the provider: the rolling buffer and the
single pending debounce deadline (`menuDetectionTimeout`), `none` when no
detection task is scheduled.  A single `Option` field models the single
timeout handle of the source: scheduling overwrites it, so at most one
detection task is ever outstanding. -/
structure DebounceState where
  buffer : List (List Char)
  pending : Option Nat
deriving DecidableEq

/-- Events of the timed model: an output chunk arriving at time `t`
(`_parseClaudeActions(data)`), or the event loop reaching time `t`
(firing the timeout if its deadline has passed). -/
inductive DebEvent where
  | chunk (t : Nat) (data : List Char)
  | tick (t : Nat)
deriving DecidableEq

/-- One step.  A chunk appends to the buffer via `_updateTerminalBuffer`,
clears any pending timeout (`clearTimeout`) and schedules detection at
`t + 500` (`setTimeout(..., 500)`).  A tick at or past the deadline fires
`_detectInteractiveMenu`, recording the buffer it analyzes. -/
def debStep (s : DebounceState) : DebEvent → DebounceState × Option (List (List Char))
  | DebEvent.chunk t data =>
    ({ buffer := updateTerminalBuffer s.buffer data, pending := some (t + 500) }, none)
  | DebEvent.tick t =>
    match s.pending with
    | some deadline =>
      if deadline ≤ t then ({ s with pending := none }, some s.buffer)
      else (s, none)
    | none => (s, none)

/-- Run a list of events, collecting the buffers analyzed by the
detection passes that fired, in order. -/
def debRun (s : DebounceState) : List DebEvent → DebounceState × List (List (List Char))
  | [] => (s, [])
  | e :: es =>
    let se := debStep s e
    let rest := debRun se.1 es
    (rest.1, se.2.toList ++ rest.2)

/-- C5: every chunk cancels the previously pending detection task and
schedules a new one at `t + 500` (so at most one task is outstanding);
for two chunks arriving within the 500 ms debounce interval, with an
intervening tick before the first deadline and a tick after the second
deadline, exactly one detection pass fires, and it analyzes the buffer as
of the second chunk. -/
theorem c5_debounce
    (b0 : List (List Char)) (p0 : Option Nat)
    (t1 t2 u v : Nat) (d1 d2 : List Char)
    (hu : u < t1 + 500) (_ht : t2 < t1 + 500) (hv : t2 + 500 ≤ v) :
    (∀ s t d, (debStep s (DebEvent.chunk t d)).1.pending = some (t + 500)) ∧
    (debRun ⟨b0, p0⟩
        [DebEvent.chunk t1 d1, DebEvent.tick u, DebEvent.chunk t2 d2,
         DebEvent.tick v]).2 =
      [updateTerminalBuffer (updateTerminalBuffer b0 d1) d2] ∧
    (debRun ⟨b0, p0⟩
        [DebEvent.chunk t1 d1, DebEvent.tick u, DebEvent.chunk t2 d2,
         DebEvent.tick v]).1.pending = none := by
  refine ⟨fun s t d => rfl, ?_, ?_⟩
  · simp only [debRun, debStep]
    rw [if_neg (show ¬ (t1 + 500 ≤ u) by omega),
      if_pos (show t2 + 500 ≤ v by omega)]
    simp
  · simp only [debRun, debStep]
    rw [if_neg (show ¬ (t1 + 500 ≤ u) by omega),
      if_pos (show t2 + 500 ≤ v by omega)]

/-- Witness for C5 at concrete times: chunks at 0 and 400 (within the
500 ms window), an idle tick at 300, and a tick at 900: one pass fires,
seeing both lines. -/
theorem c5_debounce_witness :
    (debRun ⟨[], none⟩
        [DebEvent.chunk 0 "a".data, DebEvent.tick 300,
         DebEvent.chunk 400 "b".data, DebEvent.tick 900]).2 =
      [["a".data, "b".data]] := by
  have h := (c5_debounce [] none 0 400 300 900 "a".data "b".data
    (by omega) (by omega) (by omega)).2.1
  rw [h]
  decide

/-- Provider state (`ClaudeTerminalProvider` fields): the `terminals` map
(insertion-ordered association list of id to display name, mirroring a JS
`Map`), the creation counter, and the provider-level rolling buffer and
debounce deadline, which the source shares across all sessions. -/
structure ProviderState where
  terminals : List (String × String)
  terminalCounter : Nat
  terminalBuffer : List (List Char)
  menuDetectionTimeout : Option Nat
deriving DecidableEq

/-- Externally observable calls made by the provider on the pty processes
and the webview. -/
inductive Effect where
  | spawnClaude (id : String)
  | postTerminalCreated (id name : String)
  | write (id : String) (data : List Char)
  | resizePty (id : String) (cols rows : Nat)
  | kill (id : String)
  | postOutput (id : String) (data : List Char)
deriving DecidableEq

/-- Initial provider state: empty map, counter 1, empty buffer, no
pending detection. -/
def initialState : ProviderState :=
  { terminals := [], terminalCounter := 1, terminalBuffer := [],
    menuDetectionTimeout := none }

/-- `this.terminals.get(id)` on the association list. -/
def mapGet (m : List (String × String)) (k : String) : Option String :=
  (m.find? (fun e => e.1 == k)).map (fun e => e.2)

/-- `this.terminals.set(id, t)`: replace in place if present, else append
(JS `Map` insertion order). -/
def mapSet : List (String × String) → String → String → List (String × String)
  | [], k, v => [(k, v)]
  | e :: es, k, v => if e.1 == k then (k, v) :: es else e :: mapSet es k v

/-- `this.terminals.delete(id)`: remove the entry with this key (keys are
unique in a JS `Map`, so filtering is equivalent). -/
def mapDelete (m : List (String × String)) (k : String) : List (String × String) :=
  m.filter (fun e => e.1 != k)

/-- `createNewTerminal()`: allocate `terminal-<n>` and `CC:<n>` from the
counter (`terminal-${this.terminalCounter++}` then
`CC:${this.terminalCounter - 1}`, both using the pre-increment value),
spawn the process, register the session, and notify the webview. -/
def createNewTerminal (st : ProviderState) : ProviderState × List Effect :=
  let n := st.terminalCounter
  let terminalId := "terminal-" ++ Nat.repr n
  let terminalName := "CC:" ++ Nat.repr n
  ({ st with terminals := mapSet st.terminals terminalId terminalName,
             terminalCounter := n + 1 },
   [Effect.spawnClaude terminalId,
    Effect.postTerminalCreated terminalId terminalName])

/-- The `terminalInput` message handler: write to the pty if the id is
tracked, otherwise do nothing. -/
def sendInput (st : ProviderState) (id : String) (data : List Char) :
    ProviderState × List Effect :=
  match mapGet st.terminals id with
  | some _ => (st, [Effect.write id data])
  | none => (st, [])

/-- The `resizeTerminal` message handler: resize the pty if the id is
tracked, otherwise do nothing. -/
def resizeTerminal (st : ProviderState) (id : String) (cols rows : Nat) :
    ProviderState × List Effect :=
  match mapGet st.terminals id with
  | some _ => (st, [Effect.resizePty id cols rows])
  | none => (st, [])

/-- `closeTerminal(terminalId)`: if tracked, kill the pty and remove the
entry; otherwise do nothing.  The provider-level buffer and detection
timeout fields are not touched. -/
def closeTerminal (st : ProviderState) (id : String) :
    ProviderState × List Effect :=
  match mapGet st.terminals id with
  | some _ => ({ st with terminals := mapDelete st.terminals id }, [Effect.kill id])
  | none => (st, [])

/-- The pty `onData` handler for session `id` at time `t`: forward the
chunk to the webview, then `_parseClaudeActions(data)` appends it to the
provider-level buffer and resets the provider-level debounce deadline to
`t + 500`.  The session id plays no role in the buffer/timer update. -/
def handlePtyData (st : ProviderState) (id : String) (t : Nat)
    (data : List Char) : ProviderState × List Effect :=
  ({ st with terminalBuffer := updateTerminalBuffer st.terminalBuffer data,
             menuDetectionTimeout := some (t + 500) },
   [Effect.postOutput id data])

/-- `dispose()`: clear the detection timeout, kill every tracked pty,
clear the map and the buffer. -/
def disposeProvider (st : ProviderState) : ProviderState × List Effect :=
  ({ terminals := [], terminalCounter := st.terminalCounter,
     terminalBuffer := [], menuDetectionTimeout := none },
   st.terminals.map (fun e => Effect.kill e.1))

theorem mapGet_mapDelete (m : List (String × String)) (k : String) :
    mapGet (mapDelete m k) k = none := by
  induction m with
  | nil => rfl
  | cons e es ih =>
    simp only [mapDelete, List.filter] at ih ⊢
    by_cases h : e.1 = k
    · simp only [h, bne_self_eq_false]
      simpa [mapDelete] using ih
    · have hb : (e.1 != k) = true := by simp [bne, h]
      rw [hb]
      simp only [mapGet, List.find?] at ih ⊢
      have : (e.1 == k) = false := by simp [h]
      rw [this]
      simp only [mapGet] at ih ⊢
      exact ih

/-- C6: `sendInput`, `resize` and `closeSession` on an id that is not
currently tracked leave the state unchanged and perform no external
calls; and `closeSession` is idempotent — the second close of the same id
changes nothing and performs no calls. -/
theorem c6_unknown_id_noop :
    (∀ (st : ProviderState) (id : String) (data : List Char) (cols rows : Nat),
      mapGet st.terminals id = none →
        sendInput st id data = (st, []) ∧
        resizeTerminal st id cols rows = (st, []) ∧
        closeTerminal st id = (st, [])) ∧
    (∀ (st : ProviderState) (id : String),
      closeTerminal (closeTerminal st id).1 id = ((closeTerminal st id).1, [])) := by
  constructor
  · intro st id data cols rows h
    refine ⟨?_, ?_, ?_⟩ <;> simp [sendInput, resizeTerminal, closeTerminal, h]
  · intro st id
    cases h : mapGet st.terminals id with
    | none =>
      simp only [closeTerminal, h]
    | some name =>
      simp only [closeTerminal, h]
      rw [show mapGet (mapDelete st.terminals id) id = none from
        mapGet_mapDelete st.terminals id]

/-- Witness for C6: operations on the untracked id `terminal-1` in the
initial state do nothing. -/
theorem c6_unknown_id_noop_witness :
    sendInput initialState "terminal-1" "x".data = (initialState, []) ∧
    resizeTerminal initialState "terminal-1" 80 24 = (initialState, []) ∧
    closeTerminal initialState "terminal-1" = (initialState, []) :=
  c6_unknown_id_noop.1 initialState "terminal-1" "x".data 80 24 (by decide)

/-- C8 (code defect): the buffer/timer update performed when a session
produces output does not depend on which session produced it — the
resulting state is identical for any two session ids — and concretely,
output from `terminal-1` and then from `terminal-2` lands in the one
shared provider buffer, the second chunk overwriting the deadline the
first had scheduled.  The sessions therefore do not have private
buffer/timer state. -/
theorem c8_shared_buffer_and_timer :
    (∀ (st : ProviderState) (id1 id2 : String) (t : Nat) (data : List Char),
      (handlePtyData st id1 t data).1 = (handlePtyData st id2 t data).1) ∧
    ((handlePtyData (handlePtyData initialState "terminal-1" 0 "A".data).1
        "terminal-2" 10 "B".data).1.terminalBuffer = ["A".data, "B".data] ∧
      (handlePtyData (handlePtyData initialState "terminal-1" 0 "A".data).1
        "terminal-2" 10 "B".data).1.menuDetectionTimeout = some 510) := by
  exact ⟨fun st id1 id2 t data => rfl, by decide, by decide⟩

/-- C9 (code defect): `closeTerminal` kills the pty and removes the map
entry but leaves the provider's rolling buffer and pending detection
deadline untouched; concretely, closing `terminal-1` while a detection is
pending and the buffer is non-empty leaves both in place. -/
theorem c9_close_leaves_buffer_and_timer :
    (∀ (st : ProviderState) (id : String),
      (closeTerminal st id).1.terminalBuffer = st.terminalBuffer ∧
      (closeTerminal st id).1.menuDetectionTimeout = st.menuDetectionTimeout) ∧
    closeTerminal
        { terminals := [("terminal-1", "CC:1")], terminalCounter := 2,
          terminalBuffer := ["1. Yes".data],
          menuDetectionTimeout := some 500 } "terminal-1" =
      ({ terminals := [], terminalCounter := 2,
         terminalBuffer := ["1. Yes".data],
         menuDetectionTimeout := some 500 }, [Effect.kill "terminal-1"]) := by
  constructor
  · intro st id
    cases h : mapGet st.terminals id <;> simp [closeTerminal, h]
  · decide

/-- Decimal digit characters of `n`, most significant first: the
recursion-friendly form of what `Nat.repr` (the semantics of the JS
template literal `${n}`) produces. -/
def decDigits (n : Nat) : List Char :=
  if n < 10 then [Nat.digitChar n]
  else decDigits (n / 10) ++ [Nat.digitChar (n % 10)]
termination_by n
decreasing_by
  exact Nat.div_lt_self (by omega) (by omega)

theorem decDigits_lt10 (n : Nat) (h : n < 10) :
    decDigits n = [Nat.digitChar n] := by
  rw [decDigits, if_pos h]

theorem decDigits_ge10 (n : Nat) (h : 10 ≤ n) :
    decDigits n = decDigits (n / 10) ++ [Nat.digitChar (n % 10)] := by
  rw [decDigits]
  rw [if_neg (by omega)]

theorem toDigitsCore_eq_decDigits (fuel : Nat) :
    ∀ (n : Nat) (ds : List Char), n < fuel →
    Nat.toDigitsCore 10 fuel n ds = decDigits n ++ ds := by
  induction fuel with
  | zero => intro n ds h; omega
  | succ fuel ih =>
    intro n ds hnf
    simp only [Nat.toDigitsCore]
    by_cases h0 : n / 10 = 0
    · have hn : n < 10 := by omega
      rw [if_pos h0, decDigits_lt10 n hn, Nat.mod_eq_of_lt hn]
      rfl
    · have hn : 10 ≤ n := by
        rcases Nat.lt_or_ge n 10 with h1 | h1
        · exact absurd (Nat.div_eq_of_lt h1) h0
        · exact h1
      have hlt : n / 10 < fuel := by omega
      rw [if_neg h0, ih (n / 10) _ hlt, decDigits_ge10 n hn]
      simp

theorem decDigits_length_pos (n : Nat) : 0 < (decDigits n).length := by
  by_cases h : n < 10
  · rw [decDigits_lt10 n h]
    simp
  · rw [decDigits_ge10 n (by omega)]
    simp

theorem digitChar_inj_lt10 :
    ∀ a, a < 10 → ∀ b, b < 10 → Nat.digitChar a = Nat.digitChar b → a = b := by
  decide

theorem decDigits_inj : ∀ m n : Nat, decDigits m = decDigits n → m = n := by
  intro m
  induction m using Nat.strong_induction_on with
  | _ m ih =>
    intro n h
    by_cases hm : m < 10 <;> by_cases hn : n < 10
    · rw [decDigits_lt10 m hm, decDigits_lt10 n hn] at h
      simp only [List.cons.injEq, and_true] at h
      exact digitChar_inj_lt10 m hm n hn h
    · rw [decDigits_lt10 m hm, decDigits_ge10 n (by omega)] at h
      have hl := congrArg List.length h
      simp only [List.length_cons, List.length_nil, List.length_append] at hl
      have := decDigits_length_pos (n / 10)
      omega
    · rw [decDigits_ge10 m (by omega), decDigits_lt10 n hn] at h
      have hl := congrArg List.length h
      simp only [List.length_cons, List.length_nil, List.length_append] at hl
      have := decDigits_length_pos (m / 10)
      omega
    · rw [decDigits_ge10 m (by omega), decDigits_ge10 n (by omega)] at h
      obtain ⟨h1, h2⟩ := List.append_inj' h (by simp)
      have hdiv : m / 10 = n / 10 :=
        ih (m / 10) (Nat.div_lt_self (by omega) (by omega)) (n / 10) h1
      have hmod : m % 10 = n % 10 := by
        simp only [List.cons.injEq, and_true] at h2
        exact digitChar_inj_lt10 (m % 10) (Nat.mod_lt m (by omega))
          (n % 10) (Nat.mod_lt n (by omega)) h2
      omega

theorem natRepr_inj {m n : Nat} (h : Nat.repr m = Nat.repr n) : m = n := by
  have hd : (Nat.repr m).data = (Nat.repr n).data := by rw [h]
  have hm : (Nat.repr m).data = decDigits m := by
    show (Nat.toDigits 10 m).asString.data = decDigits m
    show Nat.toDigitsCore 10 (m + 1) m [] = decDigits m
    rw [toDigitsCore_eq_decDigits (m + 1) m [] (by omega)]
    simp
  have hn : (Nat.repr n).data = decDigits n := by
    show Nat.toDigitsCore 10 (n + 1) n [] = decDigits n
    rw [toDigitsCore_eq_decDigits (n + 1) n [] (by omega)]
    simp
  exact decDigits_inj m n (hm ▸ hn ▸ hd)

theorem append_natRepr_inj (p : String) {m n : Nat}
    (h : p ++ Nat.repr m = p ++ Nat.repr n) : m = n := by
  have h2 : (p ++ Nat.repr m).data = (p ++ Nat.repr n).data := by rw [h]
  rw [String.data_append, String.data_append] at h2
  exact natRepr_inj (String.ext (List.append_cancel_left h2))

/-- Session-manager operations for the id/name-uniqueness claim: a
creation request or a close request, in any interleaving. -/
inductive SessionOp where
  | create
  | close (id : String)
deriving DecidableEq

/-- Run a sequence of operations from a state, collecting for every
creation the (id, name, counter value) that `createNewTerminal` assigned,
in order.  The recorded id and name are exactly the ones
`createNewTerminal` builds from the pre-increment counter. -/
def runOps : ProviderState → List SessionOp → ProviderState × List (String × String × Nat)
  | st, [] => (st, [])
  | st, SessionOp.create :: ops =>
    let n := st.terminalCounter
    let rest := runOps (createNewTerminal st).1 ops
    (rest.1, ("terminal-" ++ Nat.repr n, "CC:" ++ Nat.repr n, n) :: rest.2)
  | st, SessionOp.close id :: ops => runOps (closeTerminal st id).1 ops

theorem closeTerminal_counter (st : ProviderState) (id : String) :
    (closeTerminal st id).1.terminalCounter = st.terminalCounter := by
  cases h : mapGet st.terminals id <;> simp [closeTerminal, h]

theorem runOps_spec (ops : List SessionOp) : ∀ st : ProviderState,
    ((runOps st ops).2.Pairwise (fun a b => a.2.2 < b.2.2)) ∧
    (∀ e ∈ (runOps st ops).2, st.terminalCounter ≤ e.2.2 ∧
      e.1 = "terminal-" ++ Nat.repr e.2.2 ∧ e.2.1 = "CC:" ++ Nat.repr e.2.2) := by
  induction ops with
  | nil => intro st; simp [runOps]
  | cons op ops ih =>
    intro st
    cases op with
    | create =>
      obtain ⟨ihp, ihm⟩ := ih (createNewTerminal st).1
      have hc : (createNewTerminal st).1.terminalCounter = st.terminalCounter + 1 := rfl
      simp only [runOps]
      constructor
      · refine List.Pairwise.cons ?_ ihp
        intro b hb
        have := (ihm b hb).1
        rw [hc] at this
        show st.terminalCounter < b.2.2
        omega
      · intro e he
        rcases List.mem_cons.mp he with he | he
        · subst he
          exact ⟨Nat.le_refl _, rfl, rfl⟩
        · obtain ⟨h1, h2, h3⟩ := ihm e he
          rw [hc] at h1
          exact ⟨by omega, h2, h3⟩
    | close id =>
      obtain ⟨ihp, ihm⟩ := ih (closeTerminal st id).1
      simp only [runOps]
      refine ⟨ihp, fun e he => ?_⟩
      obtain ⟨h1, h2, h3⟩ := ihm e he
      rw [closeTerminal_counter] at h1
      exact ⟨h1, h2, h3⟩

/-- C7: over any interleaving of creations and closures starting from the
initial state, the counter values recorded at creation are strictly
increasing (one counter, incremented on every creation), the assigned ids
and display names embed exactly those counter values and are pairwise
distinct — no id or name is ever reused. -/
theorem c7_ids_names_unique (ops : List SessionOp) :
    (((runOps initialState ops).2.map (fun e => e.2.2)).Pairwise (· < ·)) ∧
    (((runOps initialState ops).2.map (fun e => e.1)).Pairwise (· ≠ ·)) ∧
    (((runOps initialState ops).2.map (fun e => e.2.1)).Pairwise (· ≠ ·)) ∧
    (∀ e ∈ (runOps initialState ops).2,
      e.1 = "terminal-" ++ Nat.repr e.2.2 ∧ e.2.1 = "CC:" ++ Nat.repr e.2.2) ∧
    (∀ st : ProviderState,
      (createNewTerminal st).1.terminalCounter = st.terminalCounter + 1) := by
  obtain ⟨hp, hm⟩ := runOps_spec ops initialState
  refine ⟨?_, ?_, ?_, fun e he => (hm e he).2, fun st => rfl⟩
  · rw [List.pairwise_map]
    exact hp
  · rw [List.pairwise_map]
    refine List.Pairwise.imp_of_mem ?_ hp
    intro a b ha hb hlt heq
    rw [(hm a ha).2.1, (hm b hb).2.1] at heq
    exact absurd (append_natRepr_inj _ heq) (by omega)
  · rw [List.pairwise_map]
    refine List.Pairwise.imp_of_mem ?_ hp
    intro a b ha hb hlt heq
    rw [(hm a ha).2.2, (hm b hb).2.2] at heq
    exact absurd (append_natRepr_inj _ heq) (by omega)

/-- Witness for C7 at a concrete interleaving: create, close the first
session, create again — the recorded ids/names embed counters 1 and 2 and
are distinct even though the first session was closed in between. -/
theorem c7_ids_names_unique_witness :
    (runOps initialState
        [SessionOp.create, SessionOp.close "terminal-1", SessionOp.create]).2 =
      [("terminal-1", "CC:1", 1), ("terminal-2", "CC:2", 2)] ∧
    ((runOps initialState
        [SessionOp.create, SessionOp.close "terminal-1", SessionOp.create]).2.map
      (fun e => e.1)).Pairwise (· ≠ ·) :=
  ⟨by decide,
   (c7_ids_names_unique
     [SessionOp.create, SessionOp.close "terminal-1", SessionOp.create]).2.1⟩
